import Mathlib

/-!
Verification of the NIA real-time voice interaction core.

This file gives a shallow embedding, in Lean 4, of the orchestration and
concurrency layer of the NIA voice assistant (sources under `src/core` and
`src/interface`), and proves the testable properties stated in its
specification against that embedding.

Modelling conventions:
* Python `str` values are modelled as `List Char` (named `Str` below), so
  that every string operation is structurally recursive and computable.
* Python `float` confidence scores and timestamps are modelled as `ℚ`;
  every score occurring in the code is a small decimal literal, and no
  claim under scrutiny depends on binary floating-point rounding.
* Threaded loops are modelled as step functions on explicit state records;
  one call of a step function corresponds to one loop iteration (one
  "tick"), and cross-thread interleavings are modelled as lists of events
  folded over the state.
* Fallible calls are modelled with `Option` / `Except`.
-/

namespace NIA

/-! ### String primitives

Python string operations used by the sources, modelled on `List Char`:
`lower` is `str.lower`, `strip` is `str.strip`, and `containsSub hay nd`
is the Python containment test `nd in hay`. -/

abbrev Str := List Char

/-- Model of Python `str.lower` (the sources only lowercase ASCII data). -/
def lower (s : Str) : Str := s.map Char.toLower

/-- Model of Python `str.strip`: drop whitespace from both ends. -/
def strip (s : Str) : Str :=
  ((s.dropWhile Char.isWhitespace).reverse.dropWhile Char.isWhitespace).reverse

/-- Boolean test that `p` is a prefix of `l`. -/
def isPrefixList : Str → Str → Bool
  | [], _ => true
  | _ :: _, [] => false
  | a :: as, b :: bs => a == b && isPrefixList as bs

/-- Model of Python substring containment `needle in hay`. -/
def containsSub (hay needle : Str) : Bool :=
  match hay with
  | [] => isPrefixList needle []
  | _ :: t => isPrefixList needle hay || containsSub t needle

theorem isPrefixList_nil (needle : Str) : isPrefixList needle [] = needle.isEmpty := by
  cases needle <;> rfl

theorem containsSub_nonempty {hay needle : Str} (hne : needle ≠ [])
    (h : containsSub hay needle = true) : hay ≠ [] := by
  intro hcon
  subst hcon
  rw [containsSub, isPrefixList_nil] at h
  exact hne (List.isEmpty_iff.mp h)

/-! ### Data model: `AutonomousSuggestion` (src/core/autonomy_agent.py)

The Python dataclass carries `text, confidence, trigger_type, timestamp,
topic, metadata`. The `metadata` dict, when present, always holds the two
keys `"source"` and `"memory_context"`; it is modelled as an optional pair
(source, memory context snippets). -/

structure AutonomousSuggestion where
  text : Str
  confidence : ℚ
  trigger_type : Str
  timestamp : ℚ
  topic : Option Str := none
  metadata : Option (Str × List Str) := none
deriving DecidableEq

/-! ### ConfirmationManager (src/core/confirmation_manager.py) -/

structure BatchedSuggestion where
  suggestions : List AutonomousSuggestion
  combined_text : Str
  highest_confidence : ℚ
  primary_trigger : Str
deriving DecidableEq

/-- Stable insertion of a suggestion into a list sorted by descending
confidence. `foldr insertByConf []` implements exactly the observable
behaviour of Python `sorted(key=lambda s: s.confidence, reverse=True)`:
a stable sort in descending confidence order. -/
def insertByConf (s : AutonomousSuggestion) :
    List AutonomousSuggestion → List AutonomousSuggestion
  | [] => [s]
  | t :: ts => if t.confidence ≤ s.confidence then s :: t :: ts else t :: insertByConf s ts

/-- Model of `sorted(self._pending_suggestions, key=lambda s: s.confidence,
reverse=True)` in `ConfirmationManager._create_batched_suggestion`. -/
def sortByConfDesc (l : List AutonomousSuggestion) : List AutonomousSuggestion :=
  l.foldr insertByConf []

/-- Model of `ConfirmationManager._create_batched_suggestion`: sort the
pending suggestions by descending confidence, keep the top 3, build the
combined text, and take the highest confidence and primary trigger from
the top suggestion. Returns `none` exactly when the pending list is empty. -/
def create_batched_suggestion (pending : List AutonomousSuggestion) :
    Option BatchedSuggestion :=
  match (sortByConfDesc pending).take 3 with
  | [] => none
  | [a] => some ⟨[a], a.text, a.confidence, a.trigger_type⟩
  | [a, b] =>
      some ⟨[a, b],
        "I have a couple of thoughts: ".toList ++ a.text ++ " Also, ".toList ++ b.text,
        a.confidence, a.trigger_type⟩
  | a :: b :: c :: rest =>
      some ⟨a :: b :: c :: rest,
        "I have a few thoughts: ".toList ++ a.text ++ " Also, ".toList ++ b.text
          ++ " And ".toList ++ c.text,
        a.confidence, a.trigger_type⟩

/-- Affirmative word set of `ConfirmationManager._present_confirmation`. -/
def yes_words : List Str :=
  ["yes".toList, "sure".toList, "okay".toList, "go ahead".toList,
   "please".toList, "sounds good".toList]

/-- Negative word set of `ConfirmationManager._present_confirmation`. -/
def no_words : List Str :=
  ["no".toList, "not now".toList, "later".toList, "skip".toList, "dismiss".toList]

/-- Model of the response-interpretation tail of
`ConfirmationManager._present_confirmation` (lines 146-160): a `none`
response stands for a listen timeout or listen error, `some r` for a
transcribed reply. Python's falsiness test `if not response` rejects both
`None` and the empty string; the reply is lowercased and stripped, then
matched against the affirmative set first and the negative set second,
and anything unmatched defaults to `false`. -/
def matchConfirmationResponse (response : Option Str) : Bool :=
  match response with
  | none => false
  | some r =>
    if r.isEmpty then false
    else
      let response_lower := strip (lower r)
      if yes_words.any (fun w => containsSub response_lower w) then true
      else if no_words.any (fun w => containsSub response_lower w) then false
      else false

/-! ### Sorting lemmas for the batching claim -/

theorem mem_insertByConf {a s : AutonomousSuggestion} :
    ∀ {l : List AutonomousSuggestion}, a ∈ insertByConf s l ↔ a = s ∨ a ∈ l := by
  intro l
  induction l with
  | nil => simp [insertByConf]
  | cons t ts ih =>
      rw [insertByConf]
      split
      · simp
      · simp only [List.mem_cons, ih]
        tauto

theorem mem_sortByConfDesc {a : AutonomousSuggestion} :
    ∀ {l : List AutonomousSuggestion}, a ∈ sortByConfDesc l ↔ a ∈ l := by
  intro l
  induction l with
  | nil => simp [sortByConfDesc]
  | cons x xs ih =>
      simp only [sortByConfDesc, List.foldr_cons, List.mem_cons]
      rw [mem_insertByConf]
      simp only [sortByConfDesc] at ih
      rw [ih]

theorem sortByConfDesc_head_max :
    ∀ {l : List AutonomousSuggestion} {hd : AutonomousSuggestion}
      {tl : List AutonomousSuggestion},
      sortByConfDesc l = hd :: tl → ∀ a ∈ l, a.confidence ≤ hd.confidence := by
  intro l
  induction l with
  | nil => intro hd tl h; simp [sortByConfDesc] at h
  | cons x xs ih =>
      intro hd tl h a ha
      have hx : sortByConfDesc (x :: xs) = insertByConf x (sortByConfDesc xs) := rfl
      rw [hx] at h
      rcases hxs : sortByConfDesc xs with _ | ⟨h0, t0⟩
      · rw [hxs] at h
        simp only [insertByConf] at h
        cases h
        rcases List.mem_cons.mp ha with h1 | h1
        · subst h1; exact le_refl _
        · exact absurd (mem_sortByConfDesc.mpr h1) (by rw [hxs]; simp)
      · rw [hxs] at h
        rw [insertByConf] at h
        split at h
        · -- x placed at the head: x.confidence is maximal
          rename_i hle
          cases h
          rcases List.mem_cons.mp ha with h1 | h1
          · subst h1; exact le_refl _
          · exact le_trans (ih hxs a h1) hle
        · -- head of the sorted tail stays maximal
          rename_i hgt
          cases h
          rcases List.mem_cons.mp ha with h1 | h1
          · subst h1; exact le_of_not_le hgt
          · exact ih hxs a h1

/-! ### Claim theorems: confirmation dialogue and batching -/

/-- Claim C2: for every confirmation dialogue, if the user's response times
out (modelled as `none`, which is also what a listen error produces), is
empty, or matches neither the affirmative word set nor the negative word
set (case-insensitively, on the stripped lowercased reply), the dialogue
result is `confirmed = false`; it is never `true` in any of those cases. -/
theorem confirmation_fail_closed (response : Option Str)
    (h : response = none ∨ response = some [] ∨
         ∃ r, response = some r ∧
           yes_words.any (fun w => containsSub (strip (lower r)) w) = false ∧
           no_words.any (fun w => containsSub (strip (lower r)) w) = false) :
    matchConfirmationResponse response = false := by
  rcases h with h | h | ⟨r, hr, hy, hn⟩
  · subst h; rfl
  · subst h; rfl
  · subst hr
    rcases r with _ | ⟨c, cs⟩
    · rfl
    · simp [matchConfirmationResponse, hy, hn]

/-- Witness for `confirmation_fail_closed`: the reply "hmm maybe" matches
neither word set and is interpreted as a refusal. -/
theorem confirmation_fail_closed_witness :
    matchConfirmationResponse (some ("hmm maybe".toList)) = false :=
  confirmation_fail_closed _ (Or.inr (Or.inr ⟨_, rfl, by decide, by decide⟩))

/-- Claim C10: in the confirmation dialogue's response matching, the
affirmative word set is tested before the negative word set, so every
response containing a word from both sets resolves to `confirmed = true`. -/
theorem affirmative_tested_first (r : Str)
    (hyes : yes_words.any (fun w => containsSub (strip (lower r)) w) = true)
    (hno : no_words.any (fun w => containsSub (strip (lower r)) w) = true) :
    matchConfirmationResponse (some r) = true := by
  have hall : ∀ w ∈ yes_words, w ≠ [] := by decide
  rcases List.any_eq_true.mp hyes with ⟨w, hw, hcw⟩
  have hne : strip (lower r) ≠ [] := containsSub_nonempty (hall w hw) hcw
  have hre : r.isEmpty = false := by
    rcases r with _ | ⟨c, cs⟩
    · exact absurd rfl hne
    · rfl
  simp [matchConfirmationResponse, hre, hyes, hno]

/-- Witness for `affirmative_tested_first`: the ambiguous reply
"sure, not now" contains the affirmative word "sure" and the negative
phrase "not now", and resolves to `true`. -/
theorem affirmative_tested_first_witness :
    matchConfirmationResponse (some ("sure, not now".toList)) = true :=
  affirmative_tested_first _ (by decide) (by decide)

/-- Claim C6: for every non-empty pending list, the batched suggestion is
built from at most the 3 pending suggestions of highest confidence, sorted
in descending confidence order (the `take 3` of the stable descending
sort); its `highest_confidence` equals the confidence of the top sorted
suggestion, which is maximal among all pending suggestions, and its
`primary_trigger` is that top suggestion's trigger type. (Idleness and
batch-close timing are handled by the caller `_batching_timer` and do not
affect how the batch is built.) -/
theorem batched_suggestion_top3 (pending : List AutonomousSuggestion)
    (hne : pending ≠ []) :
    ∃ b, create_batched_suggestion pending = some b ∧
      b.suggestions = (sortByConfDesc pending).take 3 ∧
      ∃ top tl, sortByConfDesc pending = top :: tl ∧
        top ∈ pending ∧
        b.highest_confidence = top.confidence ∧
        b.primary_trigger = top.trigger_type ∧
        ∀ a ∈ pending, a.confidence ≤ top.confidence := by
  have hsne : sortByConfDesc pending ≠ [] := by
    rcases pending with _ | ⟨x, xs⟩
    · exact absurd rfl hne
    · intro h
      have hx : x ∈ sortByConfDesc (x :: xs) :=
        mem_sortByConfDesc.mpr (List.mem_cons_self x xs)
      rw [h] at hx
      exact absurd hx (List.not_mem_nil x)
  rcases hs : sortByConfDesc pending with _ | ⟨top, tl⟩
  · exact absurd hs hsne
  have htop : top ∈ pending :=
    mem_sortByConfDesc.mp (by rw [hs]; exact List.mem_cons_self _ _)
  have hmax := sortByConfDesc_head_max hs
  rcases tl with _ | ⟨b2, tl2⟩
  · exact ⟨⟨[top], top.text, top.confidence, top.trigger_type⟩,
      (by unfold create_batched_suggestion; rw [hs]; rfl), rfl,
      top, [], rfl, htop, rfl, rfl, hmax⟩
  · rcases tl2 with _ | ⟨b3, tl3⟩
    · exact ⟨⟨[top, b2],
        "I have a couple of thoughts: ".toList ++ top.text ++ " Also, ".toList ++ b2.text,
        top.confidence, top.trigger_type⟩,
        (by unfold create_batched_suggestion; rw [hs]; rfl), rfl,
        top, [b2], rfl, htop, rfl, rfl, hmax⟩
    · exact ⟨⟨[top, b2, b3],
        "I have a few thoughts: ".toList ++ top.text ++ " Also, ".toList ++ b2.text
          ++ " And ".toList ++ b3.text,
        top.confidence, top.trigger_type⟩,
        (by unfold create_batched_suggestion; rw [hs]; rfl), rfl,
        top, b2 :: b3 :: tl3, rfl, htop, rfl, rfl, hmax⟩

/-- Example pending list realising the specification's batching scenario
with confidences 0.8, 0.6, 0.4. -/
def examplePending : List AutonomousSuggestion :=
  [⟨"a".toList, 8/10, "decision_keyword".toList, 0, none, none⟩,
   ⟨"b".toList, 6/10, "hesitation".toList, 0, none, none⟩,
   ⟨"c".toList, 4/10, "repetition".toList, 0, none, none⟩]

/-- Witness for `batched_suggestion_top3`: the specification's example with
confidences 0.8, 0.6, 0.4. -/
theorem batched_suggestion_top3_witness :
    ∃ b, create_batched_suggestion examplePending = some b ∧
      b.suggestions = (sortByConfDesc examplePending).take 3 ∧
      ∃ top tl, sortByConfDesc examplePending = top :: tl ∧
        top ∈ examplePending ∧
        b.highest_confidence = top.confidence ∧
        b.primary_trigger = top.trigger_type ∧
        ∀ a ∈ examplePending, a.confidence ≤ top.confidence :=
  batched_suggestion_top3 examplePending (List.cons_ne_nil _ _)

/-! ### AutonomyAgent (src/core/autonomy_agent.py)

The context scorer `_analyze_context`, the suggestion factory
`_generate_context_aware_suggestion`, and the background loop
`_run_loop` with its `pause`/`resume`/`update_user_input` controls.
The memory lookup (an external async collaborator with a 2-second
timeout and fallbacks) is modelled as the `memory_context` parameter:
whatever snippet list that lookup produced. -/

/-- Apostrophe character, kept out of string literals. -/
def apos : Char := Char.ofNat 39

/-- Python word-character test for the regex class `\w` (the sources only
scan ASCII transcripts). -/
def isWordChar (c : Char) : Bool := c.isAlphanum || c == '_'

/-- Word-ness of an optional character; positions beyond either end of the
text count as non-word, as in regex `\b`. -/
def wordB : Option Char → Bool
  | none => false
  | some c => isWordChar c

/-- Test that the literal alternative `alt` matches at the current scan
position with a regex word boundary `\b` on both sides. `rest` is the
text suffix starting at the position and `prev` the character just before
it. -/
def altMatchesAt (prev : Option Char) (rest : Str) (alt : Str) : Bool :=
  isPrefixList alt rest &&
  (wordB prev != wordB rest.head?) &&
  (wordB alt.getLast? != wordB (rest.drop alt.length).head?)

/-- Fuel-indexed scanner for `len(re.findall(pattern, text))` where the
pattern is a word-boundary-delimited alternation of literal words,
`\b(w1|w2|...)\b` — the shape of every hesitation pattern in the source.
The scan moves left to right; at each position the alternatives are tried
in order (Python alternation is ordered), a match is counted and skipped,
and otherwise the scan advances one character. The fuel argument makes the
recursion structural; each step consumes at least one character, so fuel
equal to the text length (see `scanCount`) never runs out. -/
def scanCountFuel (alts : List Str) : Nat → Option Char → Str → Nat
  | 0, _, _ => 0
  | _, _, [] => 0
  | fuel + 1, prev, c :: rest =>
    match alts.find? (fun alt => !alt.isEmpty && altMatchesAt prev (c :: rest) alt) with
    | some alt => 1 + scanCountFuel alts fuel alt.getLast? ((c :: rest).drop alt.length)
    | none => scanCountFuel alts fuel (some c) rest

/-- Number of non-overlapping word-boundary matches of the alternation
`alts` in `text`. -/
def scanCount (alts : List Str) (text : Str) : Nat :=
  scanCountFuel alts text.length none text

/-- Configuration of the autonomy agent, with the default values read from
`settings.get("autonomy", {})` in `AutonomyAgent.__init__`. The two default
hesitation regexes are alternations of literal words and are recorded by
their alternative lists. -/
structure AgentCfg where
  interval_seconds : ℚ := 45
  confidence_threshold : ℚ := 6/10
  decision_keywords : List Str :=
    ["should i".toList, "what if".toList, "maybe".toList, "i think".toList,
     "i".toList ++ [apos] ++ "m not sure".toList, "help me decide".toList,
     "i need to".toList, "i want to".toList, "i have to".toList,
     "i should".toList, "i could".toList, "i might".toList,
     "what do you think".toList, "any suggestions".toList, "any ideas".toList,
     "what would you do".toList]
  high_value_topics : List Str :=
    ["work".toList, "project".toList, "meeting".toList, "deadline".toList,
     "plan".toList, "schedule".toList, "task".toList, "problem".toList,
     "issue".toList, "decision".toList, "choice".toList, "option".toList,
     "strategy".toList]
  hesitation_patterns : List (List Str) :=
    [["um".toList, "uh".toList, "er".toList, "ah".toList, "hmm".toList,
      "well".toList, "so".toList, "like".toList, "you know".toList],
     ["i mean".toList, "i guess".toList, "i suppose".toList,
      "sort of".toList, "kind of".toList]]

/-- Default configuration of `AutonomyAgent`. -/
def defaultAgentCfg : AgentCfg := {}

/-- Model of the topic scan inside `_analyze_context`: fold over the
high-value-topic set, adding 0.2 to the topic score and (re)setting the
topic for every matching term. -/
def topicScan (topics : List Str) (text : Str) : ℚ × Option Str :=
  topics.foldl
    (fun p topic_word => if containsSub text topic_word then (p.1 + 2/10, some topic_word) else p)
    ((0 : ℚ), (none : Option Str))

/-- Decision-keyword stage of `_analyze_context` (lines 187-194): each
matching keyword adds 0.3 to the decision score; a positive score adds
`min(score, 0.8)` to the confidence and makes the trigger
`decision_keyword`. Returns the (confidence, trigger) pair after the
stage, starting from confidence 0 and trigger `periodic`. -/
def decisionStage (cfg : AgentCfg) (text : Str) : ℚ × Str :=
  let decision_score : ℚ :=
    cfg.decision_keywords.foldl
      (fun acc keyword => if containsSub text keyword then acc + 3/10 else acc) 0
  (if 0 < decision_score then min decision_score (8/10) else 0,
   if 0 < decision_score then "decision_keyword".toList else "periodic".toList)

/-- High-value-topic stage of `_analyze_context` (lines 196-205): a
positive topic score adds `min(score, 0.6)` to the confidence, and the
trigger becomes `high_value_topic` only if it is still `periodic`. The
third component is the topic recorded by the scan. -/
def topicStage (cfg : AgentCfg) (text : Str) (p : ℚ × Str) : (ℚ × Str) × Option Str :=
  let ts := topicScan cfg.high_value_topics text
  ((if 0 < ts.1 then p.1 + min ts.1 (6/10) else p.1,
    if 0 < ts.1 ∧ p.2 = "periodic".toList then "high_value_topic".toList else p.2),
   ts.2)

/-- Hesitation stage of `_analyze_context` (lines 207-214): the total
regex match count `n` over all hesitation patterns contributes
`min(n * 0.1, 0.4)`, with the same trigger-override rule. -/
def hesitationStage (cfg : AgentCfg) (text : Str) (p : ℚ × Str) : ℚ × Str :=
  let hesitation_count : Nat :=
    cfg.hesitation_patterns.foldl (fun acc alts => acc + scanCount alts text) 0
  (if 0 < hesitation_count then p.1 + min ((hesitation_count : ℚ) * (1/10)) (4/10) else p.1,
   if 0 < hesitation_count ∧ p.2 = "periodic".toList then "hesitation".toList else p.2)

/-- Repetition stage of `_analyze_context` (lines 216-222): with at least
3 history entries whose lowercased last 3 contain a duplicate, add a flat
0.3, with the same trigger-override rule. -/
def repetitionStage (input_history : List Str) (p : ℚ × Str) : ℚ × Str :=
  let recent_texts := (input_history.drop (input_history.length - 3)).map lower
  let rep : Prop := 3 ≤ input_history.length ∧ ¬ recent_texts.Nodup
  (if rep then p.1 + 3/10 else p.1,
   if rep ∧ p.2 = "periodic".toList then "repetition".toList else p.2)

/-- Model of `AutonomyAgent._analyze_context`: lowercase the latest input,
run the four scoring stages in source order, add the 0.2 recency bonus
when the latest input is younger than 30 seconds, and clamp the final
confidence to at most 1. Returns (confidence, trigger type, topic). -/
def analyze_context (cfg : AgentCfg) (last_user_input : Str) (input_history : List Str)
    (time_since_activity : ℚ) : ℚ × Str × Option Str :=
  let text := lower last_user_input
  let p1 := decisionStage cfg text
  let q := topicStage cfg text p1
  let p2 := hesitationStage cfg text q.1
  let p3 := repetitionStage input_history p2
  let confidence := if time_since_activity < 30 then p3.1 + 2/10 else p3.1
  (min confidence 1, p3.2, q.2)

/-- Python truthiness of an optional string (`None` and the empty string
are falsy). -/
def truthyStr : Option Str → Bool
  | none => false
  | some s => !s.isEmpty

/-- Model of Python `sep.join(l)`. -/
def joinWith (sep : Str) : List Str → Str
  | [] => []
  | [x] => x
  | x :: y :: rest => x ++ sep ++ joinWith sep (y :: rest)

/-- Model of `AutonomyAgent._generate_suggestion_for_context`: render the
suggestion text from a trigger-specific template, preferring the
memory-snippet preview when snippets are available. -/
def generate_suggestion_for_context (topic : Option Str) (trigger_type : Str)
    (memory_context : List Str) : Str :=
  if !memory_context.isEmpty then
    let preview := joinWith (" \n".toList) (memory_context.take 3)
    if trigger_type = "high_value_topic".toList ∧ truthyStr topic then
      "On ".toList ++ topic.getD [] ++ ", here".toList ++ [apos] ++ "s what we".toList
        ++ [apos] ++ "ve discussed before: \n".toList ++ preview
        ++ "\nWould you like me to summarize options or next steps?".toList
    else if trigger_type = "decision_keyword".toList then
      "Based on similar past moments: \n".toList ++ preview
        ++ "\nWant me to help weigh pros and cons now?".toList
    else if trigger_type = "hesitation".toList then
      "I remember you sounded unsure previously: \n".toList ++ preview
        ++ "\nWant a quick path forward?".toList
    else if trigger_type = "repetition".toList then
      "This keeps coming up: \n".toList ++ preview
        ++ "\nShould we make a plan together?".toList
    else
      "Here".toList ++ [apos] ++ "s some context that might help: \n".toList ++ preview
        ++ "\nWant suggestions?".toList
  else if trigger_type = "high_value_topic".toList ∧ truthyStr topic then
    "I noticed you mentioned ".toList ++ topic.getD []
      ++ ". Would you like some help with that?".toList
  else if trigger_type = "decision_keyword".toList then
    "I can help you think through that decision. What factors are you considering?".toList
  else if trigger_type = "hesitation".toList then
    "It sounds like you".toList ++ [apos] ++ "re thinking through something. Want to talk it out?".toList
  else if trigger_type = "repetition".toList then
    "I notice you".toList ++ [apos] ++ "ve mentioned this before. Would you like some help with it?".toList
  else
    "Is there anything I can help you with right now?".toList

/-- State of one `AutonomyAgent` instance: the pause flag
(`_paused_event`), the thread-safe suggestion queue, the loop-local
`last_emit` stamp, and the context-tracking fields. -/
structure AgentState where
  paused : Bool
  queue : List AutonomousSuggestion
  last_emit : ℚ
  last_user_input : Str
  input_history : List Str
  last_activity_time : ℚ

/-- Model of `AutonomyAgent.pause`: set the pause flag (guarded, so a
second call is a no-op). -/
def AutonomyAgent_pause (st : AgentState) : AgentState :=
  if st.paused then st else { st with paused := true }

/-- Model of `AutonomyAgent.resume`: clear the pause flag (guarded). -/
def AutonomyAgent_resume (st : AgentState) : AgentState :=
  if st.paused then { st with paused := false } else st

/-- Model of `AutonomyAgent.update_user_input`: ignore blank input, else
record the stripped text, append it to the history (trimmed to the last
10 entries) and stamp the activity time. -/
def update_user_input (st : AgentState) (text : Str) (now : ℚ) : AgentState :=
  if (strip text).isEmpty then st
  else
    let t := strip text
    let h := st.input_history ++ [t]
    { st with
        last_user_input := t,
        input_history := if 10 < h.length then h.drop (h.length - 10) else h,
        last_activity_time := now }

/-- Model of `AutonomyAgent._generate_context_aware_suggestion`: no
suggestion without user input, below the confidence threshold, for a
`periodic` trigger, or with empty rendered text; otherwise an
`AutonomousSuggestion` carrying the analysis results and the memory
context. -/
def generate_context_aware_suggestion (cfg : AgentCfg) (st : AgentState) (now : ℚ)
    (memory_context : List Str) : Option AutonomousSuggestion :=
  if st.last_user_input.isEmpty then none
  else
    let r := analyze_context cfg st.last_user_input st.input_history (now - st.last_activity_time)
    if r.1 < cfg.confidence_threshold then none
    else if r.2.1 = "periodic".toList then none
    else
      let suggestion_text := generate_suggestion_for_context r.2.2 r.2.1 memory_context
      if suggestion_text.isEmpty then none
      else
        some ⟨suggestion_text, r.1, r.2.1, now, r.2.2,
              some ("context_aware_autonomy".toList, memory_context)⟩

/-- Model of one iteration of `AutonomyAgent._run_loop`: skip entirely
while paused; otherwise, once the emit interval has elapsed, generate a
suggestion, enqueue it when one is produced, and advance `last_emit`. -/
def run_loop_tick (cfg : AgentCfg) (st : AgentState) (now : ℚ)
    (memory_context : List Str) : AgentState :=
  if st.paused then st
  else if cfg.interval_seconds ≤ now - st.last_emit then
    match generate_context_aware_suggestion cfg st now memory_context with
    | some s => { st with queue := st.queue ++ [s], last_emit := now }
    | none => { st with last_emit := now }
  else st

/-- Events that can reach an `AutonomyAgent` between two observations:
loop ticks, the orchestrator's pause/resume overrides, and context
updates from new user input. -/
inductive AgentEv where
  | tick (now : ℚ) (memory_context : List Str)
  | pauseOverride
  | resumeOverride
  | userInput (text : Str) (now : ℚ)

/-- Apply one agent event. -/
def agentStep (cfg : AgentCfg) (st : AgentState) : AgentEv → AgentState
  | .tick now mem => run_loop_tick cfg st now mem
  | .pauseOverride => AutonomyAgent_pause st
  | .resumeOverride => AutonomyAgent_resume st
  | .userInput text now => update_user_input st text now

/-- Apply a sequence of agent events in order. -/
def agentRun (cfg : AgentCfg) (st : AgentState) (evs : List AgentEv) : AgentState :=
  evs.foldl (agentStep cfg) st

/-! ### Agent lemmas -/

theorem AutonomyAgent_pause_eq (st : AgentState) :
    AutonomyAgent_pause st = { st with paused := true } := by
  unfold AutonomyAgent_pause
  split
  · rename_i h; cases st; simp_all
  · rfl

theorem AutonomyAgent_resume_eq (st : AgentState) :
    AutonomyAgent_resume st = { st with paused := false } := by
  unfold AutonomyAgent_resume
  split
  · rfl
  · rename_i h; cases st; simp_all

/-- While the pause flag is set, no event other than a resume override
changes the queue, and the flag stays set. -/
theorem agentRun_paused_frozen (cfg : AgentCfg) :
    ∀ evs : List AgentEv, (∀ e ∈ evs, e ≠ AgentEv.resumeOverride) →
      ∀ st : AgentState, st.paused = true →
        (agentRun cfg st evs).paused = true ∧ (agentRun cfg st evs).queue = st.queue := by
  intro evs
  induction evs with
  | nil => exact fun _ st h => ⟨h, rfl⟩
  | cons e es ih =>
      intro hne st hp
      have he : e ≠ AgentEv.resumeOverride := hne e (List.mem_cons_self _ _)
      have hstep : (agentStep cfg st e).paused = true ∧ (agentStep cfg st e).queue = st.queue := by
        cases e with
        | tick now mem => simp [agentStep, run_loop_tick, hp]
        | pauseOverride => simp [agentStep, AutonomyAgent_pause, hp]
        | resumeOverride => exact absurd rfl he
        | userInput text now =>
            show (update_user_input st text now).paused = true ∧
              (update_user_input st text now).queue = st.queue
            unfold update_user_input
            split
            · exact ⟨hp, rfl⟩
            · exact ⟨hp, rfl⟩
      have h2 := ih (fun f hf => hne f (List.mem_cons_of_mem _ hf)) (agentStep cfg st e) hstep.1
      exact ⟨h2.1, h2.2.trans hstep.2⟩

/-! ### Claim theorems: autonomy engine -/

/-- Claim C4: after `pause()` is called on the autonomy engine, zero
suggestions are enqueued on its queue until `resume()` is called — across
any sequence of loop ticks (at arbitrary times, so regardless of elapsed
time), further pause calls and user-input updates — and `pause()` and
`resume()` are idempotent. -/
theorem pause_blocks_enqueue (cfg : AgentCfg) (st : AgentState) :
    AutonomyAgent_pause (AutonomyAgent_pause st) = AutonomyAgent_pause st ∧
    AutonomyAgent_resume (AutonomyAgent_resume st) = AutonomyAgent_resume st ∧
    ∀ evs : List AgentEv, (∀ e ∈ evs, e ≠ AgentEv.resumeOverride) →
      (agentRun cfg (AutonomyAgent_pause st) evs).queue = st.queue := by
  refine ⟨by simp [AutonomyAgent_pause_eq], by simp [AutonomyAgent_resume_eq], ?_⟩
  intro evs hne
  have h := agentRun_paused_frozen cfg evs hne (AutonomyAgent_pause st)
    (by rw [AutonomyAgent_pause_eq])
  rw [h.2, AutonomyAgent_pause_eq]

/-- Example idle agent state. -/
def exampleAgentState : AgentState := ⟨false, [], 0, [], [], 0⟩

/-- Witness for `pause_blocks_enqueue`: after a pause, two late ticks, a
second pause, a user-input update and another tick leave the queue
unchanged. -/
theorem pause_blocks_enqueue_witness :
    (agentRun defaultAgentCfg (AutonomyAgent_pause exampleAgentState)
      [AgentEv.tick 100 [], AgentEv.tick 1000000 [], AgentEv.pauseOverride,
       AgentEv.userInput ("hi".toList) 1000001, AgentEv.tick 1000050 []]).queue
      = exampleAgentState.queue :=
  (pause_blocks_enqueue defaultAgentCfg exampleAgentState).2.2 _ (by
    intro e he
    fin_cases he <;> intro hcon <;> cases hcon)

/-- Claim C3: if the scorer resolves the trigger type to `periodic`, or
resolves a confidence below the configured threshold, then
`_generate_context_aware_suggestion` produces no suggestion and the loop
tick leaves the suggestion queue unchanged — so no such suggestion is ever
enqueued (and, since the queue is the only path to the confirmation flow,
never spoken). Contrapositively, enqueueing requires a non-`periodic`
trigger and a confidence at least the threshold. -/
theorem periodic_never_enqueued (cfg : AgentCfg) (st : AgentState) (now : ℚ)
    (memory_context : List Str)
    (h : (analyze_context cfg st.last_user_input st.input_history
            (now - st.last_activity_time)).2.1 = "periodic".toList ∨
         (analyze_context cfg st.last_user_input st.input_history
            (now - st.last_activity_time)).1 < cfg.confidence_threshold) :
    generate_context_aware_suggestion cfg st now memory_context = none ∧
    (run_loop_tick cfg st now memory_context).queue = st.queue := by
  have hg : generate_context_aware_suggestion cfg st now memory_context = none := by
    unfold generate_context_aware_suggestion
    split
    · rfl
    · rcases h with h | h
      · by_cases hc : (analyze_context cfg st.last_user_input st.input_history
            (now - st.last_activity_time)).1 < cfg.confidence_threshold
        · simp [hc]
        · simp [hc, h]
      · simp [h]
  refine ⟨hg, ?_⟩
  unfold run_loop_tick
  split
  · rfl
  · split
    · rw [hg]
    · rfl

/-- Example agent state holding the spec's `periodic` scenario input
"hello there". -/
def helloAgentState : AgentState := ⟨false, [], 0, "hello there".toList, [], 0⟩

/-- Witness for `periodic_never_enqueued`: the specification's end-to-end
example "hello there" resolves to `periodic` and yields no suggestion. -/
theorem periodic_never_enqueued_witness :
    generate_context_aware_suggestion defaultAgentCfg helloAgentState 0 [] = none ∧
    (run_loop_tick defaultAgentCfg helloAgentState 0 []).queue = helloAgentState.queue :=
  periodic_never_enqueued defaultAgentCfg helloAgentState 0 [] (Or.inl rfl)

/-! ### Topic-stage lemmas (claim C7) -/

/-- Last element of a list when it has one, else a fallback option. -/
def lastWins (l : List Str) (t : Option Str) : Option Str :=
  match l.getLast? with
  | some w => some w
  | none => t

theorem lastWins_none (l : List Str) : lastWins l none = l.getLast? := by
  unfold lastWins
  cases h : l.getLast? <;> rfl

/-- Closed form of the topic fold: the score counts matches at 0.2 each
and the recorded topic is the last matching term (or the accumulator when
nothing matches). -/
theorem topicScan_foldl (text : Str) :
    ∀ (topics : List Str) (a : ℚ) (t : Option Str),
      topics.foldl
        (fun p topic_word =>
          if containsSub text topic_word then (p.1 + 2/10, some topic_word) else p) (a, t)
      = (a + (2/10) * ((topics.filter (fun w => containsSub text w)).length : ℚ),
         lastWins (topics.filter (fun w => containsSub text w)) t) := by
  intro topics
  induction topics with
  | nil => intro a t; simp [lastWins]
  | cons w ws ih =>
      intro a t
      by_cases hw : containsSub text w = true
      · rw [List.foldl_cons]
        simp only [hw, if_true, List.filter_cons_of_pos hw, ih]
        rw [Prod.mk.injEq]
        constructor
        · rw [List.length_cons]
          push_cast
          ring
        · rcases hf : ws.filter (fun w => containsSub text w) with _ | ⟨y, ys⟩
          · simp [lastWins]
          · unfold lastWins
            rw [List.getLast?_cons_cons, List.getLast?_eq_getLast (y :: ys) (by simp)]
      · rw [List.foldl_cons]
        simp only [hw, if_false, List.filter_cons_of_neg hw, ih]
        simp

theorem topicScan_eq (cfg : AgentCfg) (text : Str) :
    topicScan cfg.high_value_topics text
      = ((2/10) * ((cfg.high_value_topics.filter (fun w => containsSub text w)).length : ℚ),
         (cfg.high_value_topics.filter (fun w => containsSub text w)).getLast?) := by
  unfold topicScan
  rw [topicScan_foldl, lastWins_none, zero_add]

/-- Claim C7 (amended): for every input text in which at least one
configured high-value-topic term occurs, the topic stage adds to the
confidence a topic contribution of `min(0.2 · matches, 0.6)` — capped at
0.6 — and records as topic the LAST matching term of the high-value-topic
set (the source overwrites the topic on every matching term, so the first
matching term claimed by the specification only survives when it is the
only match); the trigger is overridden to `high_value_topic` exactly when
it is still `periodic`. The analyzer's reported topic is that same last
matching term. -/
theorem topic_contribution_capped (cfg : AgentCfg) (last_user_input : Str)
    (input_history : List Str) (tsa : ℚ)
    (h : cfg.high_value_topics.filter
          (fun w => containsSub (lower last_user_input) w) ≠ []) :
    (analyze_context cfg last_user_input input_history tsa).2.2
      = (cfg.high_value_topics.filter
          (fun w => containsSub (lower last_user_input) w)).getLast? ∧
    ∀ p : ℚ × Str,
      topicStage cfg (lower last_user_input) p
      = ((p.1 + min ((2/10) * ((cfg.high_value_topics.filter
              (fun w => containsSub (lower last_user_input) w)).length : ℚ)) (6/10),
          if p.2 = "periodic".toList then "high_value_topic".toList else p.2),
         (cfg.high_value_topics.filter
          (fun w => containsSub (lower last_user_input) w)).getLast?) := by
  have hpos : 0 < (2/10 : ℚ) * ((cfg.high_value_topics.filter
      (fun w => containsSub (lower last_user_input) w)).length : ℚ) := by
    have h1 : 0 < (cfg.high_value_topics.filter
        (fun w => containsSub (lower last_user_input) w)).length :=
      List.length_pos.mpr h
    have h2 : (0 : ℚ) < ((cfg.high_value_topics.filter
        (fun w => containsSub (lower last_user_input) w)).length : ℚ) := by
      exact_mod_cast h1
    nlinarith
  have hstage : ∀ p : ℚ × Str,
      topicStage cfg (lower last_user_input) p
      = ((p.1 + min ((2/10) * ((cfg.high_value_topics.filter
              (fun w => containsSub (lower last_user_input) w)).length : ℚ)) (6/10),
          if p.2 = "periodic".toList then "high_value_topic".toList else p.2),
         (cfg.high_value_topics.filter
          (fun w => containsSub (lower last_user_input) w)).getLast?) := by
    intro p
    unfold topicStage
    rw [topicScan_eq]
    simp only [hpos, if_true, true_and]
  refine ⟨?_, hstage⟩
  unfold analyze_context
  simp only [hstage]

/-- Counterexample to claim C7 as stated: on the input
"work on the project" both "work" and "project" match the default
high-value-topic set; the first matching term is "work", but the analyzer
reports the topic "project" (the last matching term). -/
theorem topic_first_match_counterexample :
    (analyze_context defaultAgentCfg ("work on the project".toList) [] 0).2.2
      = some ("project".toList) ∧
    defaultAgentCfg.high_value_topics.find?
      (fun w => containsSub (lower ("work on the project".toList)) w)
      = some ("work".toList) ∧
    some ("project".toList) ≠ (some ("work".toList) : Option Str) :=
  ⟨rfl, rfl, by decide⟩

/-- Witness for `topic_contribution_capped`: the input
"work on the project" matches two topic terms; the contribution is
`min(0.4, 0.6)` and the recorded topic is "project". -/
theorem topic_contribution_capped_witness :
    (analyze_context defaultAgentCfg ("work on the project".toList) [] 0).2.2
      = (defaultAgentCfg.high_value_topics.filter
          (fun w => containsSub (lower ("work on the project".toList)) w)).getLast? ∧
    ∀ p : ℚ × Str,
      topicStage defaultAgentCfg (lower ("work on the project".toList)) p
      = ((p.1 + min ((2/10) * ((defaultAgentCfg.high_value_topics.filter
              (fun w => containsSub (lower ("work on the project".toList)) w)).length : ℚ)) (6/10),
          if p.2 = "periodic".toList then "high_value_topic".toList else p.2),
         (defaultAgentCfg.high_value_topics.filter
          (fun w => containsSub (lower ("work on the project".toList)) w)).getLast?) :=
  topic_contribution_capped defaultAgentCfg ("work on the project".toList) [] 0 (by decide)

/-! ### STTManager (src/core/stt_manager.py)

The Silero voice-activity gate wrapper and the streaming transcription
loop. The torch/VADIterator call inside the gate is an external
collaborator and is modelled as a function into `Except Unit Bool`:
`Except.error ()` stands for a raised exception. -/

/-- State of `_SileroVADProvider`: its `_enabled` flag. -/
structure VADProvider where
  enabled : Bool
deriving DecidableEq

/-- Model of `_SileroVADProvider.process_frame`: when disabled, report
speech without consulting the model; otherwise consult the inner
classifier, and if it raises, log, disable the provider for the remainder
of the process, and report speech (fail-open). The embedding is a total
function, so no exception ever escapes to the caller. -/
def process_frame {Frame : Type} (inner : Frame → Except Unit Bool)
    (p : VADProvider) (f : Frame) : Bool × VADProvider :=
  if !p.enabled then (true, p)
  else
    match inner f with
    | .ok b => (b, p)
    | .error _ => (true, ⟨false⟩)

/-- Fold `process_frame` over a frame sequence, returning the per-frame
classifications and the final provider state. -/
def process_frames {Frame : Type} (inner : Frame → Except Unit Bool)
    (p : VADProvider) : List Frame → List Bool × VADProvider
  | [] => ([], p)
  | f :: rest =>
    let r := process_frame inner p f
    let rr := process_frames inner r.2 rest
    (r.1 :: rr.1, rr.2)

/-- Configuration of the transcription loop: the utterance trigger and
release thresholds, with the defaults read in `STTManager.__init__`
(`vad_trigger_ms` 250, `vad_release_ms` 300). -/
structure STTCfg where
  vad_trigger_ms : Nat := 250
  vad_release_ms : Nat := 300
deriving DecidableEq

/-- Default transcription-loop configuration. -/
def defaultSTTCfg : STTCfg := {}

/-- Local state of one `STTManager._transcription_loop` invocation:
accumulated transcript, the `in_speech` flag, the running speech and
silence counters (ms), the empty-queue timeout counter (ms), and
`start_time`, the wall-clock stamp of the last speech-classified frame
(or of loop start). -/
structure TranscriptionState where
  full_transcript : Str
  in_speech : Bool
  speech_ms : Nat
  silence_ms : Nat
  last_audio_time : Nat
  start_time : ℚ

/-- One iteration's input to the transcription loop: either an audio
frame (with the voice-activity gate's classification, its duration, the
recognizer's completed text for it if any, and the wall-clock reading
used by the loop's timeout check), or a 100 ms `queue.Empty` timeout with
no audio. -/
inductive AudioEv where
  /-- A frame was dequeued. `is_speech` is the gate's classification,
  `frame_ms` the duration computed from the byte length, `recognized`
  the completed text the recognizer reported when fed the frame
  (`none` when it only produced a partial), and `now` the wall-clock
  time at the end-of-iteration timeout check. -/
  | frame (is_speech : Bool) (frame_ms : Nat) (recognized : Option Str) (now : ℚ)
  /-- The 0.1 s `queue.get` timed out with no audio. -/
  | empty

/-- Model of one iteration of `STTManager._transcription_loop` (lines
224-303). Returns the updated state and `true` when the loop breaks
(finalisation). A speech frame adds its duration to `speech_ms`, resets
`silence_ms`, the timeout counter and `start_time`, raises `in_speech`
once `speech_ms` reaches the trigger threshold, and appends any completed
recognizer text (prefixed by a space, as in the source's f-string). A
non-speech frame does the converse on the counters and breaks once
`in_speech` holds and `silence_ms` reaches the release threshold;
otherwise the iteration breaks when more than 5 seconds have passed since
the last speech frame. An empty-queue timeout adds 100 ms to the timeout
counter and breaks at the hard-coded 5000 ms threshold regardless of
state. -/
def transcription_step (cfg : STTCfg) (st : TranscriptionState) :
    AudioEv → TranscriptionState × Bool
  | .frame is_speech frame_ms recognized now =>
      if is_speech then
        let speech_ms := st.speech_ms + frame_ms
        let in_speech := st.in_speech || decide (cfg.vad_trigger_ms ≤ speech_ms)
        let full_transcript :=
          match recognized with
          | some text =>
              if text.isEmpty then st.full_transcript
              else st.full_transcript ++ [' '] ++ text
          | none => st.full_transcript
        let st2 : TranscriptionState := ⟨full_transcript, in_speech, speech_ms, 0, 0, now⟩
        (st2, decide ((5 : ℚ) < now - st2.start_time))
      else
        let silence_ms := st.silence_ms + frame_ms
        let st2 : TranscriptionState :=
          { st with silence_ms := silence_ms, speech_ms := 0, last_audio_time := 0 }
        if st.in_speech && decide (cfg.vad_release_ms ≤ silence_ms) then (st2, true)
        else (st2, decide ((5 : ℚ) < now - st.start_time))
  | .empty =>
      let last_audio_time := st.last_audio_time + 100
      ({ st with last_audio_time := last_audio_time },
       decide (5000 ≤ last_audio_time))

/-! ### Claim theorems: voice-activity gate and transcription loop -/

/-- Claim C9: the voice-activity gate's classify operation never raises
(the embedding is a total function into `Bool × VADProvider`, and the
raising inner call is confined by the `Except` match); when the inner
model raises on a frame while the gate is enabled, the gate returns
`speech = true` for that frame and permanently disables itself, and from
a disabled gate every subsequent frame is classified `speech = true`
(fail-open) with the gate staying disabled. -/
theorem vad_fail_open {Frame : Type} (inner : Frame → Except Unit Bool)
    (p : VADProvider) (f : Frame)
    (h1 : p.enabled = true) (h2 : inner f = .error ()) :
    process_frame inner p f = (true, ⟨false⟩) ∧
    ∀ q : VADProvider, q.enabled = false → ∀ fs : List Frame,
      (process_frames inner q fs).1 = fs.map (fun _ => true) ∧
      (process_frames inner q fs).2 = q := by
  constructor
  · simp [process_frame, h1, h2]
  · intro q hq fs
    induction fs with
    | nil => exact ⟨rfl, rfl⟩
    | cons g gs ih =>
        have hg : process_frame inner q g = (true, q) := by
          simp [process_frame, hq]
        simp only [process_frames, hg]
        exact ⟨by rw [ih.1]; rfl, ih.2⟩

/-- Witness for `vad_fail_open`: an always-raising inner model on `Nat`
frames. -/
theorem vad_fail_open_witness :
    process_frame (fun _ : Nat => (Except.error () : Except Unit Bool)) ⟨true⟩ 0
      = (true, ⟨false⟩) ∧
    ∀ q : VADProvider, q.enabled = false → ∀ fs : List Nat,
      (process_frames (fun _ : Nat => (Except.error () : Except Unit Bool)) q fs).1
        = fs.map (fun _ => true) ∧
      (process_frames (fun _ : Nat => (Except.error () : Except Unit Bool)) q fs).2 = q :=
  vad_fail_open _ _ 0 rfl rfl

/-- Claim C5: in the transcription loop's per-frame step, a
speech-classified frame adds its duration to `speech_ms` and resets
`silence_ms` to zero, and a non-speech frame does the converse (leaving
`in_speech` untouched); from outside an utterance, the step enters
`in_speech` exactly when the updated `speech_ms` reaches the trigger
threshold; inside an utterance, the step finalises whenever the updated
`silence_ms` reaches the release threshold; and an empty-queue tick adds
100 ms to the timeout counter and finalises exactly when it reaches the
hard-coded 5000 ms idle timeout, regardless of state. -/
theorem transcriber_frame_step (cfg : STTCfg) (st : TranscriptionState)
    (frame_ms : Nat) (recognized : Option Str) (now : ℚ) :
    ((transcription_step cfg st (.frame true frame_ms recognized now)).1.speech_ms
        = st.speech_ms + frame_ms ∧
     (transcription_step cfg st (.frame true frame_ms recognized now)).1.silence_ms = 0 ∧
     (transcription_step cfg st (.frame true frame_ms recognized now)).1.in_speech
        = (st.in_speech || decide (cfg.vad_trigger_ms ≤ st.speech_ms + frame_ms))) ∧
    ((transcription_step cfg st (.frame false frame_ms recognized now)).1.silence_ms
        = st.silence_ms + frame_ms ∧
     (transcription_step cfg st (.frame false frame_ms recognized now)).1.speech_ms = 0 ∧
     (transcription_step cfg st (.frame false frame_ms recognized now)).1.in_speech
        = st.in_speech) ∧
    (st.in_speech = false →
      ((transcription_step cfg st (.frame true frame_ms recognized now)).1.in_speech = true
        ↔ cfg.vad_trigger_ms ≤ st.speech_ms + frame_ms)) ∧
    (st.in_speech = true → cfg.vad_release_ms ≤ st.silence_ms + frame_ms →
      (transcription_step cfg st (.frame false frame_ms recognized now)).2 = true) ∧
    ((transcription_step cfg st AudioEv.empty).1.last_audio_time
        = st.last_audio_time + 100 ∧
     ((transcription_step cfg st AudioEv.empty).2 = true
        ↔ 5000 ≤ st.last_audio_time + 100)) := by
  refine ⟨⟨rfl, rfl, rfl⟩, ?_, ?_, ?_, rfl, ?_⟩
  · by_cases hc : (st.in_speech && decide (cfg.vad_release_ms ≤ st.silence_ms + frame_ms)) = true
    · refine ⟨?_, ?_, ?_⟩ <;> simp [transcription_step, hc]
    · refine ⟨?_, ?_, ?_⟩ <;> simp [transcription_step, hc]
  · intro h
    simp [transcription_step, h]
  · intro hsp hrel
    have hc : (st.in_speech && decide (cfg.vad_release_ms ≤ st.silence_ms + frame_ms)) = true := by
      simp [hsp, hrel]
    simp [transcription_step, hc]
  · simp [transcription_step]

/-- Transcription state just below the trigger threshold, outside an
utterance. -/
def listeningState : TranscriptionState := ⟨[], false, 200, 0, 0, 0⟩

/-- Transcription state inside an utterance, just below the release
threshold. -/
def utteranceState : TranscriptionState := ⟨[], true, 0, 250, 0, 0⟩

/-- Witness for `transcriber_frame_step`: a 50 ms speech frame takes the
state at 200 ms of speech to the 250 ms trigger threshold and enters the
utterance; a 50 ms silence frame takes the in-utterance state at 250 ms
of silence to the 300 ms release threshold and finalises. -/
theorem transcriber_frame_step_witness :
    ((transcription_step defaultSTTCfg listeningState (.frame true 50 none 0)).1.in_speech = true
      ↔ defaultSTTCfg.vad_trigger_ms ≤ listeningState.speech_ms + 50) ∧
    (transcription_step defaultSTTCfg utteranceState (.frame false 50 none 0)).2 = true :=
  ⟨(transcriber_frame_step defaultSTTCfg listeningState 50 none 0).2.2.1 rfl,
   (transcriber_frame_step defaultSTTCfg utteranceState 50 none 0).2.2.2.1 rfl (by decide)⟩

/-! ### TTSManager (src/core/tts_manager.py)

The phrase chunker and its queue. The configured
`sentence_boundary_regex` is a configuration surface; it is modelled by
the function `boundaryEnd`, returning the end position of the FIRST
regex match in a buffer (`re.search` semantics), `none` when nothing
matches. `chunk_chars_min` is the configured minimum phrase length. -/

/-- Character class of the emoji-removal regex in
`TTSManager._clean_text_for_speech`. -/
def isEmojiChar (c : Char) : Bool :=
  let n := c.toNat
  (0x1F600 ≤ n && n ≤ 0x1F64F) || (0x1F300 ≤ n && n ≤ 0x1F5FF) ||
  (0x1F680 ≤ n && n ≤ 0x1F6FF) || (0x1F1E0 ≤ n && n ≤ 0x1F1FF) ||
  (0x2702 ≤ n && n ≤ 0x27B0) || (0x24C2 ≤ n && n ≤ 0x1F251) ||
  (0x1F900 ≤ n && n ≤ 0x1F9FF) || (0x1FA70 ≤ n && n ≤ 0x1FAFF)

/-- Character class kept by the second cleanup regex
`[^\w\s.,!?;:'"()—-]` (word characters, whitespace and common
punctuation survive). -/
def isKeptChar (c : Char) : Bool :=
  isWordChar c || c.isWhitespace || c == '.' || c == ',' || c == '!' || c == '?' ||
  c == ';' || c == ':' || c == apos || c == '"' || c == '(' || c == ')' ||
  c == '—' || c == '-'

/-- Collapse every whitespace run into a single space (`re.sub(r'\s+', ' ', ·)`).
The flag records whether the previous character was part of a run. -/
def collapseWSAux : Bool → Str → Str
  | _, [] => []
  | inRun, c :: rest =>
    if c.isWhitespace then
      if inRun then collapseWSAux true rest else ' ' :: collapseWSAux true rest
    else c :: collapseWSAux false rest

/-- Model of `TTSManager._clean_text_for_speech`: empty text is returned
unchanged; otherwise drop emoji, drop characters outside the kept class,
collapse whitespace runs, and strip. -/
def clean_text_for_speech (text : Str) : Str :=
  if text.isEmpty then text
  else strip (collapseWSAux false ((text.filter (fun c => !isEmojiChar c)).filter isKeptChar))

/-- Chunker configuration: the minimum phrase length
`settings["voice"]["chunk_chars_min"]` and the first-match end position
of `settings["voice"]["sentence_boundary_regex"]`. -/
structure ChunkCfg where
  chunk_chars_min : Nat
  boundaryEnd : Str → Option Nat

/-- State of a `TTSManager`: the phrase queue, the shutdown flag
(`stop_event`, set only by `shutdown`), and the phrase buffer. -/
structure TTSState where
  phrase_queue : List Str
  stop_event : Bool
  buffer : Str
deriving DecidableEq

/-- Model of `TTSManager.speak`: unless shut down, clean the phrase and
enqueue it when anything survives cleaning. -/
def TTS_speak (st : TTSState) (phrase : Str) : TTSState :=
  if st.stop_event then st
  else
    let cleaned_phrase := clean_text_for_speech phrase
    if cleaned_phrase.isEmpty then st
    else { st with phrase_queue := st.phrase_queue ++ [cleaned_phrase] }

/-- The `while match:` loop of `TTSManager.add_to_buffer`, separated from
the queue effects: given the buffer content, return the final buffer and
the stripped phrases handed to `speak`, in order. Each iteration looks at
the FIRST boundary match; a too-short phrase breaks the loop without
consuming anything, a long-enough phrase is consumed and emitted. The
fuel argument (the buffer length at entry) makes the recursion
structural; every continuing iteration consumes at least one character,
so the fuel never runs out. -/
def chunk_loop_fuel (cfg : ChunkCfg) : Nat → Str → Str × List Str
  | 0, buffer => (buffer, [])
  | fuel + 1, buffer =>
    match cfg.boundaryEnd buffer with
    | none => (buffer, [])
    | some n =>
      let phrase := buffer.take n
      if (strip phrase).length ≤ cfg.chunk_chars_min then (buffer, [])
      else
        let rest := chunk_loop_fuel cfg fuel (buffer.drop n)
        (rest.1, strip phrase :: rest.2)

/-- Chunking loop at full fuel. -/
def chunk_loop (cfg : ChunkCfg) (buffer : Str) : Str × List Str :=
  chunk_loop_fuel cfg buffer.length buffer

/-- Model of `TTSManager.add_to_buffer`: append the streamed text to the
buffer, then run the chunking loop, speaking each emitted phrase. -/
def add_to_buffer (cfg : ChunkCfg) (st : TTSState) (text : Str) : TTSState :=
  let r := chunk_loop cfg (st.buffer ++ text)
  r.2.foldl TTS_speak { st with buffer := r.1 }

/-- Model of `TTSManager.flush_buffer`: when the stripped buffer is
non-blank, speak it and clear the buffer. -/
def flush_buffer (st : TTSState) : TTSState :=
  if (strip st.buffer).isEmpty then st
  else { TTS_speak st (strip st.buffer) with buffer := [] }

/-- Model of `TTSManager.stop` (barge-in): drop every queued phrase and
clear the text buffer; the synthesis unit already in flight is unaffected
(the engine has no mid-utterance stop primitive). -/
def TTS_stop (st : TTSState) : TTSState :=
  { st with phrase_queue := [], buffer := [] }

/-! ### Chunker lemmas -/

theorem strip_nil : strip [] = [] := rfl

theorem chunk_loop_fuel_none (cfg : ChunkCfg) (fuel : Nat) (buffer : Str)
    (h : cfg.boundaryEnd buffer = none) :
    chunk_loop_fuel cfg fuel buffer = (buffer, []) := by
  cases fuel with
  | zero => rfl
  | succ k => simp [chunk_loop_fuel, h]

theorem chunk_loop_fuel_short (cfg : ChunkCfg) (fuel : Nat) (buffer : Str) (n : Nat)
    (h : cfg.boundaryEnd buffer = some n)
    (hs : (strip (buffer.take n)).length ≤ cfg.chunk_chars_min) :
    chunk_loop_fuel cfg fuel buffer = (buffer, []) := by
  cases fuel with
  | zero => rfl
  | succ k => simp [chunk_loop_fuel, h, hs]

theorem chunk_loop_long (cfg : ChunkCfg) (buffer : Str) (n : Nat)
    (h : cfg.boundaryEnd buffer = some n)
    (hl : cfg.chunk_chars_min < (strip (buffer.take n)).length) :
    ∃ rest : Str × List Str,
      chunk_loop cfg buffer = (rest.1, strip (buffer.take n) :: rest.2) := by
  have hne : buffer ≠ [] := by
    intro hb
    subst hb
    simp [strip_nil] at hl
  obtain ⟨c, cs, hb⟩ : ∃ c cs, buffer = c :: cs := by
    rcases buffer with _ | ⟨c, cs⟩
    · exact absurd rfl hne
    · exact ⟨c, cs, rfl⟩
  refine ⟨chunk_loop_fuel cfg cs.length (buffer.drop n), ?_⟩
  unfold chunk_loop
  rw [hb, List.length_cons, ← hb]
  rw [chunk_loop_fuel, h]
  simp [not_le.mpr hl]

/-- Queue effect of one `speak`. -/
theorem TTS_speak_effect (st : TTSState) (p : Str) :
    (TTS_speak st p).phrase_queue
      = st.phrase_queue ++
        (if st.stop_event then []
         else if (clean_text_for_speech p).isEmpty then []
         else [clean_text_for_speech p]) ∧
    (TTS_speak st p).stop_event = st.stop_event ∧
    (TTS_speak st p).buffer = st.buffer := by
  unfold TTS_speak
  split
  · simp_all
  · split <;> simp_all

/-- Folding `speak` over phrases only ever appends to the queue. -/
theorem foldl_speak_appends :
    ∀ (ps : List Str) (st : TTSState),
      ∃ suf : List Str, (ps.foldl TTS_speak st).phrase_queue = st.phrase_queue ++ suf := by
  intro ps
  induction ps with
  | nil => exact fun st => ⟨[], by simp [List.foldl_nil]⟩
  | cons p rest ih =>
      intro st
      obtain ⟨suf, hsuf⟩ := ih (TTS_speak st p)
      obtain ⟨h1, _, _⟩ := TTS_speak_effect st p
      exact ⟨_, by rw [List.foldl_cons, hsuf, h1, List.append_assoc]⟩

theorem chunk_loop_none (cfg : ChunkCfg) (buffer : Str)
    (h : cfg.boundaryEnd buffer = none) : chunk_loop cfg buffer = (buffer, []) :=
  chunk_loop_fuel_none cfg buffer.length buffer h

theorem chunk_loop_short (cfg : ChunkCfg) (buffer : Str) (n : Nat)
    (h : cfg.boundaryEnd buffer = some n)
    (hs : (strip (buffer.take n)).length ≤ cfg.chunk_chars_min) :
    chunk_loop cfg buffer = (buffer, []) :=
  chunk_loop_fuel_short cfg buffer.length buffer n h hs

/-! ### Claim theorems: phrase chunking -/

/-- Claim C8 (amended): after appending streamed text, the chunker flushes
based on the FIRST boundary match of the configured regex in the buffer:
with no match, or with a first match whose phrase does not exceed the
minimum length, nothing is flushed and the whole buffer is retained
(even if a later boundary in the buffer has a long-enough prefix); when
the first match's phrase exceeds the threshold, that phrase (stripped,
then cleaned for speech) is enqueued immediately and chunking continues
on the remaining buffer; an explicit flush speaks the stripped buffer
whenever it is non-blank and clears the buffer. -/
theorem chunker_first_boundary (cfg : ChunkCfg) (st : TTSState) (text : Str)
    (hstop : st.stop_event = false) :
    (cfg.boundaryEnd (st.buffer ++ text) = none →
      add_to_buffer cfg st text = { st with buffer := st.buffer ++ text }) ∧
    (∀ n, cfg.boundaryEnd (st.buffer ++ text) = some n →
      (strip ((st.buffer ++ text).take n)).length ≤ cfg.chunk_chars_min →
      add_to_buffer cfg st text = { st with buffer := st.buffer ++ text }) ∧
    (∀ n, cfg.boundaryEnd (st.buffer ++ text) = some n →
      cfg.chunk_chars_min < (strip ((st.buffer ++ text).take n)).length →
      clean_text_for_speech (strip ((st.buffer ++ text).take n)) ≠ [] →
      ∃ rest : List Str,
        (add_to_buffer cfg st text).phrase_queue
          = st.phrase_queue
              ++ clean_text_for_speech (strip ((st.buffer ++ text).take n)) :: rest) ∧
    (strip st.buffer ≠ [] → clean_text_for_speech (strip st.buffer) ≠ [] →
      (flush_buffer st).phrase_queue
          = st.phrase_queue ++ [clean_text_for_speech (strip st.buffer)] ∧
      (flush_buffer st).buffer = []) := by
  refine ⟨?_, ?_, ?_, ?_⟩
  · intro h
    simp [add_to_buffer, chunk_loop_none cfg _ h]
  · intro n h hs
    simp [add_to_buffer, chunk_loop_short cfg _ n h hs]
  · intro n h hl hcne
    obtain ⟨rest, hrest⟩ := chunk_loop_long cfg (st.buffer ++ text) n h hl
    have hq : add_to_buffer cfg st text
        = (strip ((st.buffer ++ text).take n) :: rest.2).foldl TTS_speak
            { st with buffer := rest.1 } := by
      simp only [add_to_buffer, hrest]
    obtain ⟨hq1, hs2, _⟩ :=
      TTS_speak_effect { st with buffer := rest.1 } (strip ((st.buffer ++ text).take n))
    obtain ⟨suf, hsuf⟩ := foldl_speak_appends rest.2
      (TTS_speak { st with buffer := rest.1 } (strip ((st.buffer ++ text).take n)))
    refine ⟨suf, ?_⟩
    rw [hq, List.foldl_cons, hsuf, hq1]
    have hie : (clean_text_for_speech (strip ((st.buffer ++ text).take n))).isEmpty = false :=
      List.isEmpty_eq_false.mpr hcne
    simp [hstop, hie]
  · intro hb hcne
    have hie : (strip st.buffer).isEmpty = false := List.isEmpty_eq_false.mpr hb
    unfold flush_buffer
    rw [hie]
    obtain ⟨hq1, _, _⟩ := TTS_speak_effect st (strip st.buffer)
    refine ⟨?_, rfl⟩
    show (TTS_speak st (strip st.buffer)).phrase_queue = _
    rw [hq1, hstop]
    simp [List.isEmpty_eq_false.mpr hcne]

/-- First-match end position of the sentence-boundary pattern `[.!?]`, a
concrete instance of the configured `sentence_boundary_regex`. -/
def simpleBoundaryEnd (s : Str) : Option Nat :=
  (s.findIdx? (fun c => c == '.' || c == '!' || c == '?')).map (fun i => i + 1)

/-- Counterexample to claim C8 as stated: with minimum phrase length 10
and boundary pattern `[.!?]`, the streamed text
"Hi. This is a long sentence." leaves a buffer that CONTAINS a boundary
(its final period) whose prefix — the whole buffer, 28 characters —
exceeds the threshold, yet nothing is enqueued for speech and the whole
buffer is retained, because the FIRST boundary match ("Hi.") is below the
minimum length and breaks the loop. -/
theorem chunker_some_boundary_counterexample :
    ("Hi. This is a long sentence.".toList : Str).getLast? = some '.' ∧
    simpleBoundaryEnd ("Hi. This is a long sentence.".toList) = some 3 ∧
    10 < (strip ("Hi. This is a long sentence.".toList)).length ∧
    (add_to_buffer ⟨10, simpleBoundaryEnd⟩ ⟨[], false, []⟩
      ("Hi. This is a long sentence.".toList)).phrase_queue = [] ∧
    (add_to_buffer ⟨10, simpleBoundaryEnd⟩ ⟨[], false, []⟩
      ("Hi. This is a long sentence.".toList)).buffer
      = "Hi. This is a long sentence.".toList :=
  ⟨rfl, rfl, by decide, rfl, rfl⟩

/-- Witness for `chunker_first_boundary`: a first sentence longer than the
threshold is flushed at once. -/
theorem chunker_first_boundary_witness :
    ∃ rest : List Str,
      (add_to_buffer ⟨10, simpleBoundaryEnd⟩ ⟨[], false, []⟩
        ("This is a long sentence. And".toList)).phrase_queue
        = ([] : List Str)
            ++ clean_text_for_speech
                (strip ((([] : Str) ++ "This is a long sentence. And".toList).take 24)) :: rest :=
  (chunker_first_boundary ⟨10, simpleBoundaryEnd⟩ ⟨[], false, []⟩
    ("This is a long sentence. And".toList) rfl).2.2.1 24 rfl (by decide) (by decide)

/-! ### VoiceInterface orchestration (src/interface/voice_interface.py)

The session state machine with its barge-in and cancellation semantics.
Generation-stream tokens are modelled at the identification level — a
token is (generation id, issue index) — because the cancellation claims
are about which tokens can still reach the speaker, not about their text.
The TTS buffer and queue therefore carry token lists here; their
character-level behaviour is verified separately above. Each event below
names the piece of source code whose atomic effect it models; distinct
threads' actions interleave as event sequences. -/

/-- The `VoiceState` enum of `interface/voice_interface.py`. -/
inductive VoiceState where
  | idle
  | listening
  | thinking
  | speaking
deriving DecidableEq

/-- One token of a generation stream: the id of the generation (brain
task) that produced it and its issue index. -/
structure Token where
  gen : Nat
  idx : Nat
deriving DecidableEq

/-- Orchestrator state: the session state, the current brain task
(generation id, cancelled flag — present only while a response is in
flight), the TTS buffer/queue/in-flight unit/spoken history at token
granularity, the confirmation manager's pending suggestions, the autonomy
pause flag, and fresh-id counters for generations and tokens. -/
structure SysState where
  state : VoiceState
  current_brain_task : Option (Nat × Bool)
  tts_buffer : List Token
  tts_queue : List (List Token)
  in_flight : Option (List Token)
  spoken : List (List Token)
  pending_confirmations : List AutonomousSuggestion
  autonomy_paused : Bool
  next_gen : Nat
  next_tok : Nat
deriving DecidableEq

/-- Events of the orchestration layer. -/
inductive SysEv where
  /-- Hotkey press or detected wake phrase (`handle_hotkey_press`,
  `_on_wake_detected`). -/
  | trigger
  /-- The generation stream yields a token and `_stream_brain_to_tts`
  processes it: set the state to SPEAKING, append the token to the TTS
  buffer. A no-op when the task is cancelled or absent — cancellation
  makes the `async for` raise instead of yielding. -/
  | token
  /-- The chunker inside `add_to_buffer` flushed the first `k` buffered
  tokens to the queue as one phrase (its boundary and minimum-length test
  succeeded). -/
  | chunk (k : Nat)
  /-- The synthesis worker (`_tts_worker`) pops the queue head and starts
  speaking it. -/
  | synth_start
  /-- The synthesis worker finishes its in-flight unit. -/
  | synth_done
  /-- The streaming task completed normally: `_stream_brain_to_tts`
  flushes the remaining buffer, and `listen_and_respond` resumes from the
  await, returns the state to IDLE and resumes autonomy. Requires a live
  (uncancelled) task. -/
  | stream_done
  /-- The cancelled streaming task is observed: `listen_and_respond`
  catches `CancelledError` — skipping the flush, which sits after the
  `try` in the cancelled coroutine — returns the state to IDLE and
  resumes autonomy. Requires a cancelled task. -/
  | cancel_observed
  /-- `listen_and_respond`: transcription produced no text while
  LISTENING — back to IDLE, resume autonomy. -/
  | transcript_empty
  /-- `listen_and_respond`: transcription produced text while LISTENING —
  to THINKING, and a fresh brain task is created for the response. -/
  | transcript_ok

/-- One orchestration step. The `trigger` branch follows
`handle_hotkey_press`: during SPEAKING or THINKING it performs barge-in
(`tts_manager.stop()` clears the queue and the buffer,
`current_brain_task.cancel()` marks the task cancelled,
`confirmation_manager.clear_pending()` empties the pending list, the
state is left for the existing flow); from IDLE it pauses autonomy,
clears pending confirmations and starts LISTENING; while LISTENING it is
ignored. -/
def sysStep (s : SysState) : SysEv → SysState
  | .trigger =>
    if s.state = .speaking ∨ s.state = .thinking then
      { s with tts_queue := [], tts_buffer := [],
               current_brain_task := s.current_brain_task.map (fun p => (p.1, true)),
               pending_confirmations := [] }
    else if s.state = .idle then
      { s with autonomy_paused := true, pending_confirmations := [], state := .listening }
    else s
  | .token =>
    match s.current_brain_task with
    | some (g, false) =>
      { s with state := .speaking,
               tts_buffer := s.tts_buffer ++ [⟨g, s.next_tok⟩],
               next_tok := s.next_tok + 1 }
    | _ => s
  | .chunk k =>
    if s.tts_buffer.isEmpty ∨ k = 0 then s
    else { s with tts_queue := s.tts_queue ++ [s.tts_buffer.take k],
                  tts_buffer := s.tts_buffer.drop k }
  | .synth_start =>
    match s.in_flight, s.tts_queue with
    | none, p :: rest => { s with in_flight := some p, tts_queue := rest }
    | _, _ => s
  | .synth_done =>
    match s.in_flight with
    | some p => { s with spoken := s.spoken ++ [p], in_flight := none }
    | none => s
  | .stream_done =>
    match s.current_brain_task with
    | some (_, false) =>
      { s with state := .idle, autonomy_paused := false, current_brain_task := none,
               tts_queue := if s.tts_buffer.isEmpty then s.tts_queue
                            else s.tts_queue ++ [s.tts_buffer],
               tts_buffer := [] }
    | _ => s
  | .cancel_observed =>
    match s.current_brain_task with
    | some (_, true) =>
      { s with state := .idle, autonomy_paused := false, current_brain_task := none }
    | _ => s
  | .transcript_empty =>
    if s.state = .listening then { s with state := .idle, autonomy_paused := false }
    else s
  | .transcript_ok =>
    if s.state = .listening then
      { s with state := .thinking,
               current_brain_task := some (s.next_gen, false),
               next_gen := s.next_gen + 1 }
    else s

/-- Apply a sequence of orchestration events. -/
def sysRun (s : SysState) (evs : List SysEv) : SysState := evs.foldl sysStep s

/-- Tokens of the unit currently being synthesised. -/
def inFlightToks (s : SysState) : List Token :=
  match s.in_flight with
  | some p => p
  | none => []

/-- Every token anywhere in the TTS pipeline or its history. -/
def sysTokens (s : SysState) : List Token :=
  s.tts_buffer ++ s.tts_queue.flatten ++ inFlightToks s ++ s.spoken.flatten

/-- Containment invariant after a barge-in on generation `g`: `g` stays
below the generation counter (so no later task reuses it), any brain task
for generation `g` is cancelled, and every generation-`g` token in the
system lies in `keep` (the tokens that were in flight or already spoken
at barge-in time). -/
def GoodG (g : Nat) (keep : List Token) (s : SysState) : Prop :=
  g < s.next_gen ∧
  (∀ c : Bool, s.current_brain_task = some (g, c) → c = true) ∧
  (∀ t ∈ sysTokens s, t.gen = g → t ∈ keep)

theorem mem_sysTokens_of_spoken {s : SysState} {ph : List Token} {t : Token}
    (hph : ph ∈ s.spoken) (ht : t ∈ ph) : t ∈ sysTokens s := by
  have hx : ∃ l, l ∈ s.spoken ∧ t ∈ l := ⟨ph, hph, ht⟩
  unfold sysTokens
  simp only [List.mem_append, List.mem_flatten]
  tauto

theorem mem_sysTokens {s : SysState} {t : Token} :
    t ∈ sysTokens s ↔
      (t ∈ s.tts_buffer ∨ (∃ l ∈ s.tts_queue, t ∈ l) ∨
       t ∈ inFlightToks s ∨ ∃ l ∈ s.spoken, t ∈ l) := by
  unfold sysTokens
  constructor
  · intro h
    rcases List.mem_append.mp h with h1 | h4
    · rcases List.mem_append.mp h1 with h2 | h3
      · rcases List.mem_append.mp h2 with hb | hq
        · exact Or.inl hb
        · exact Or.inr (Or.inl (List.mem_flatten.mp hq))
      · exact Or.inr (Or.inr (Or.inl h3))
    · exact Or.inr (Or.inr (Or.inr (List.mem_flatten.mp h4)))
  · intro h
    rcases h with hb | hq | hf | hs
    · exact List.mem_append.mpr (Or.inl (List.mem_append.mpr
        (Or.inl (List.mem_append.mpr (Or.inl hb)))))
    · exact List.mem_append.mpr (Or.inl (List.mem_append.mpr
        (Or.inl (List.mem_append.mpr (Or.inr (List.mem_flatten.mpr hq))))))
    · exact List.mem_append.mpr (Or.inl (List.mem_append.mpr (Or.inr hf)))
    · exact List.mem_append.mpr (Or.inr (List.mem_flatten.mpr hs))

/-- One step preserves the containment invariant. -/
theorem GoodG_step (g : Nat) (keep : List Token) (s : SysState) (e : SysEv)
    (h : GoodG g keep s) : GoodG g keep (sysStep s e) := by
  obtain ⟨hg, htask, htok⟩ := h
  cases e with
  | trigger =>
      simp only [sysStep]
      split
      · refine ⟨hg, ?_, ?_⟩
        · intro c hc
          rcases hb : s.current_brain_task with _ | ⟨a, b⟩ <;> rw [hb] at hc
          · cases hc
          · have hc2 : some (a, true) = some (g, c) := hc
            rw [Option.some.injEq, Prod.mk.injEq] at hc2
            exact hc2.2.symm
        · intro t ht htg
          refine htok t ?_ htg
          rw [mem_sysTokens] at ht ⊢
          simp only [List.not_mem_nil, false_or] at ht
          rcases ht with ⟨l, hl, _⟩ | ht | ht
          · exact hl.elim
          · exact Or.inr (Or.inr (Or.inl ht))
          · exact Or.inr (Or.inr (Or.inr ht))
      · split
        · exact ⟨hg, htask, htok⟩
        · exact ⟨hg, htask, htok⟩
  | token =>
      simp only [sysStep]
      rcases hb : s.current_brain_task with _ | ⟨a, b⟩
      · exact ⟨hg, htask, htok⟩
      · cases b
        · have hag : a ≠ g := by
            intro hcon
            have hx := htask false (by rw [hb, hcon])
            simp at hx
          refine ⟨hg, ?_, ?_⟩
          · intro c hc
            have hc2 : some (a, false) = some (g, c) := hc
            rw [Option.some.injEq, Prod.mk.injEq] at hc2
            exact absurd hc2.1 hag
          · intro t ht htg
            rw [mem_sysTokens] at ht
            simp only [List.mem_append, List.mem_singleton] at ht
            rcases ht with (ht | ht) | ht
            · exact htok t (mem_sysTokens.mpr (Or.inl ht)) htg
            · subst ht
              exact absurd htg hag
            · exact htok t (mem_sysTokens.mpr (Or.inr ht)) htg
        · exact ⟨hg, htask, htok⟩
  | chunk k =>
      simp only [sysStep]
      split
      · exact ⟨hg, htask, htok⟩
      · refine ⟨hg, htask, ?_⟩
        intro t ht htg
        refine htok t ?_ htg
        rw [mem_sysTokens] at ht ⊢
        simp only [List.mem_append, List.mem_singleton] at ht
        rcases ht with ht | ⟨l, hl | hl, hml⟩ | ht | ht
        · exact Or.inl (List.mem_of_mem_drop ht)
        · exact Or.inr (Or.inl ⟨l, hl, hml⟩)
        · subst hl
          exact Or.inl (List.mem_of_mem_take hml)
        · exact Or.inr (Or.inr (Or.inl ht))
        · exact Or.inr (Or.inr (Or.inr ht))
  | synth_start =>
      simp only [sysStep]
      split
      · rename_i p rest heq1 heq2
        refine ⟨hg, htask, ?_⟩
        intro t ht htg
        refine htok t ?_ htg
        rw [mem_sysTokens] at ht ⊢
        simp only [inFlightToks] at ht ⊢
        rw [heq1, heq2]
        rcases ht with ht | ⟨l, hl, hml⟩ | ht | ht
        · exact Or.inl ht
        · exact Or.inr (Or.inl ⟨l, List.mem_cons_of_mem _ hl, hml⟩)
        · exact Or.inr (Or.inl ⟨p, List.mem_cons_self _ _, ht⟩)
        · exact Or.inr (Or.inr (Or.inr ht))
      · exact ⟨hg, htask, htok⟩
  | synth_done =>
      simp only [sysStep]
      rcases hb : s.in_flight with _ | ⟨p⟩
      · exact ⟨hg, htask, htok⟩
      · refine ⟨hg, htask, ?_⟩
        intro t ht htg
        refine htok t ?_ htg
        rw [mem_sysTokens] at ht ⊢
        simp only [inFlightToks, hb] at ht ⊢
        simp only [List.mem_append, List.mem_singleton, List.not_mem_nil, or_false,
          false_or] at ht
        rcases ht with ht | ht | ⟨l, hl | hl, hml⟩
        · exact Or.inl ht
        · exact Or.inr (Or.inl ht)
        · exact Or.inr (Or.inr (Or.inr ⟨l, hl, hml⟩))
        · subst hl
          exact Or.inr (Or.inr (Or.inl hml))
  | stream_done =>
      simp only [sysStep]
      rcases hb : s.current_brain_task with _ | ⟨a, b⟩
      · exact ⟨hg, htask, htok⟩
      · cases b
        · refine ⟨hg, ?_, ?_⟩
          · intro c hc
            have hc2 : (none : Option (Nat × Bool)) = some (g, c) := hc
            cases hc2
          · intro t ht htg
            refine htok t ?_ htg
            rw [mem_sysTokens] at ht ⊢
            simp only [List.not_mem_nil, false_or] at ht
            rcases ht with ⟨l, hl, hml⟩ | ht | ht
            · -- the queue may have received the flushed buffer
              by_cases hbe : s.tts_buffer.isEmpty = true
              · rw [if_pos hbe] at hl
                exact Or.inr (Or.inl ⟨l, hl, hml⟩)
              · rw [if_neg hbe] at hl
                rcases List.mem_append.mp hl with hl2 | hl2
                · exact Or.inr (Or.inl ⟨l, hl2, hml⟩)
                · rw [List.mem_singleton] at hl2
                  subst hl2
                  exact Or.inl hml
            · exact Or.inr (Or.inr (Or.inl ht))
            · exact Or.inr (Or.inr (Or.inr ht))
        · exact ⟨hg, htask, htok⟩
  | cancel_observed =>
      simp only [sysStep]
      rcases hb : s.current_brain_task with _ | ⟨a, b⟩
      · exact ⟨hg, htask, htok⟩
      · cases b
        · exact ⟨hg, htask, htok⟩
        · refine ⟨hg, ?_, htok⟩
          intro c hc
          have hc2 : (none : Option (Nat × Bool)) = some (g, c) := hc
          cases hc2
  | transcript_empty =>
      simp only [sysStep]
      split
      · exact ⟨hg, htask, htok⟩
      · exact ⟨hg, htask, htok⟩
  | transcript_ok =>
      simp only [sysStep]
      split
      · refine ⟨Nat.lt_succ_of_lt hg, ?_, htok⟩
        intro c hc
        have hc2 : some (s.next_gen, false) = some (g, c) := hc
        rw [Option.some.injEq, Prod.mk.injEq] at hc2
        exact absurd hc2.1 (by omega)
      · exact ⟨hg, htask, htok⟩

theorem GoodG_run (g : Nat) (keep : List Token) :
    ∀ (evs : List SysEv) (s : SysState), GoodG g keep s → GoodG g keep (sysRun s evs) := by
  intro evs
  induction evs with
  | nil => exact fun s h => h
  | cons e es ih => exact fun s h => ih (sysStep s e) (GoodG_step g keep s e h)

/-! ### Claim theorem: barge-in -/

/-- Claim C1: a trigger event (hotkey or wake phrase) arriving while the
session is THINKING or SPEAKING performs barge-in: the synthesis queue
and the phrase buffer are cleared, the in-flight generation task is
marked cancelled, pending confirmations are cleared, the unit already
being synthesised is untouched (it finishes via `synth_done`), and once
the cancelled task is observed the state returns to IDLE (with autonomy
resumed). Moreover, along EVERY subsequent event sequence, any token of
the interrupted generation `g` that is ever spoken already belonged to
the in-flight unit or to the phrases spoken before the barge-in — so no
phrase still queued behind the in-flight unit, and no token generated
after the cancellation, is ever spoken. -/
theorem barge_in_cleanup (s : SysState) (g : Nat)
    (hst : s.state = VoiceState.thinking ∨ s.state = VoiceState.speaking)
    (htask : s.current_brain_task = some (g, false))
    (hg : g < s.next_gen) :
    (sysStep s SysEv.trigger).tts_queue = [] ∧
    (sysStep s SysEv.trigger).tts_buffer = [] ∧
    (sysStep s SysEv.trigger).current_brain_task = some (g, true) ∧
    (sysStep s SysEv.trigger).pending_confirmations = [] ∧
    (sysStep s SysEv.trigger).in_flight = s.in_flight ∧
    (sysStep s SysEv.trigger).spoken = s.spoken ∧
    (sysStep (sysStep s SysEv.trigger) SysEv.cancel_observed).state = VoiceState.idle ∧
    (sysStep (sysStep s SysEv.trigger) SysEv.cancel_observed).autonomy_paused = false ∧
    ∀ evs : List SysEv, ∀ ph ∈ (sysRun (sysStep s SysEv.trigger) evs).spoken, ∀ t ∈ ph,
      t.gen = g → t ∈ inFlightToks s ++ s.spoken.flatten := by
  have hcond : s.state = VoiceState.speaking ∨ s.state = VoiceState.thinking := hst.symm
  have hs1 : sysStep s SysEv.trigger
      = { s with tts_queue := [], tts_buffer := [],
                 current_brain_task := s.current_brain_task.map (fun p => (p.1, true)),
                 pending_confirmations := [] } := by
    simp only [sysStep, if_pos hcond]
  have hs1task : (sysStep s SysEv.trigger).current_brain_task = some (g, true) := by
    rw [hs1, htask]
    rfl
  have hidle : (sysStep (sysStep s SysEv.trigger) SysEv.cancel_observed).state
      = VoiceState.idle ∧
      (sysStep (sysStep s SysEv.trigger) SysEv.cancel_observed).autonomy_paused = false := by
    set s1 := sysStep s SysEv.trigger with hq
    simp only [sysStep, hs1task]
    constructor <;> trivial
  have hbase : GoodG g (inFlightToks s ++ s.spoken.flatten) (sysStep s SysEv.trigger) := by
    refine ⟨by rw [hs1]; exact hg, ?_, ?_⟩
    · intro c hc
      rw [hs1task, Option.some.injEq, Prod.mk.injEq] at hc
      exact hc.2.symm
    · intro t ht htg
      rw [mem_sysTokens, hs1] at ht
      simp only [List.not_mem_nil, false_or] at ht
      rcases ht with ⟨l, hl, _⟩ | ht | ht
      · exact hl.elim
      · exact List.mem_append.mpr (Or.inl ht)
      · exact List.mem_append.mpr (Or.inr (List.mem_flatten.mpr ht))
  refine ⟨by rw [hs1], by rw [hs1], hs1task, by rw [hs1], by rw [hs1], by rw [hs1],
    hidle.1, hidle.2, ?_⟩
  intro evs ph hph t ht htg
  exact (GoodG_run g _ evs _ hbase).2.2 t (mem_sysTokens_of_spoken hph ht) htg

/-- Example suggestion pending confirmation at barge-in time. -/
def exampleSuggestion : AutonomousSuggestion :=
  ⟨"s".toList, 7/10, "decision_keyword".toList, 0, none, none⟩

/-- Example mid-response system state: generation 0 is streaming, one
unit is being synthesised, two phrases are queued behind it, one token
sits in the buffer, and a suggestion is pending confirmation. -/
def exampleSys : SysState :=
  { state := VoiceState.speaking,
    current_brain_task := some (0, false),
    tts_buffer := [⟨0, 3⟩],
    tts_queue := [[⟨0, 1⟩], [⟨0, 2⟩]],
    in_flight := some [⟨0, 0⟩],
    spoken := [],
    pending_confirmations := [exampleSuggestion],
    autonomy_paused := true,
    next_gen := 1,
    next_tok := 4 }

/-- Witness for `barge_in_cleanup` at the concrete state `exampleSys`. -/
theorem barge_in_cleanup_witness :
    (sysStep exampleSys SysEv.trigger).tts_queue = [] ∧
    (sysStep exampleSys SysEv.trigger).tts_buffer = [] ∧
    (sysStep exampleSys SysEv.trigger).current_brain_task = some (0, true) ∧
    (sysStep exampleSys SysEv.trigger).pending_confirmations = [] ∧
    (sysStep exampleSys SysEv.trigger).in_flight = exampleSys.in_flight ∧
    (sysStep exampleSys SysEv.trigger).spoken = exampleSys.spoken ∧
    (sysStep (sysStep exampleSys SysEv.trigger) SysEv.cancel_observed).state
      = VoiceState.idle ∧
    (sysStep (sysStep exampleSys SysEv.trigger) SysEv.cancel_observed).autonomy_paused
      = false ∧
    ∀ evs : List SysEv, ∀ ph ∈ (sysRun (sysStep exampleSys SysEv.trigger) evs).spoken,
      ∀ t ∈ ph, t.gen = 0 → t ∈ inFlightToks exampleSys ++ exampleSys.spoken.flatten :=
  barge_in_cleanup exampleSys 0 (Or.inr rfl) rfl (by decide)

end NIA
